import Mathlib

/-!
Verification of the `MasterController` request layer of the
NodeTs-Express-Service-Based-Template repository
(`src/server/src/app/utils/MasterController.js`).

JavaScript objects are embedded as association lists of string keys and
JSON values where a later entry shadows an earlier one, so the object
spread `{...a, ...b}` is list append.  Joi schemas are third-party code
and are embedded abstractly as functions from the validated data and the
validation options to an optional validation error.
-/

/-- A JSON value, as produced by `res.json` and carried in request data. -/
inductive Json where
  | null : Json
  | bool (b : Bool) : Json
  | num (n : Int) : Json
  | str (s : String) : Json
  | arr (elems : List Json) : Json
  | obj (fields : List (String × Json)) : Json

/-- A JavaScript object: association list of own enumerable properties.
A later entry shadows an earlier one, so spread-merge is append. -/
abbrev Data : Type := List (String × Json)

/-- Property read `o[k]`: the value of the last entry with key `k`. -/
def getv (o : Data) (k : String) : Option Json :=
  o.foldl (fun acc p => if p.1 = k then some p.2 else acc) none

/-- Options object passed to `schema.validate` by `joiValidator`. -/
structure ValidateOptions where
  abortEarly : Bool
  allowUnknown : Bool
deriving DecidableEq

/-- One entry of `error.details` in a Joi validation error. -/
structure JoiErrorDetail where
  message : String
deriving DecidableEq

/-- The `error` object returned by a failed `schema.validate` call. -/
structure JoiError where
  details : List JoiErrorDetail
deriving DecidableEq

/-- A Joi schema, embedded abstractly by its `validate` behaviour:
given the data and the options it returns `some error` or no error. -/
def Schema : Type := Data → ValidateOptions → Option JoiError

/-- Modelled from the spec: `PayloadType` from `./RequestBuilder`, whose
source file is not part of the provided sources; the three payload kinds
PARAMS, QUERY and BODY named by `joiValidator`. -/
inductive PayloadType where
  | PARAMS : PayloadType
  | QUERY : PayloadType
  | BODY : PayloadType
deriving DecidableEq

/-- Modelled from the spec: one validation rule stored by
`RequestBuilder.addToParams/addToQuery/addToBody`, pairing a payload
type with a Joi schema. -/
structure Payload where
  type : PayloadType
  schema : Schema

/-- Modelled from the spec: `RequestBuilder` from `./RequestBuilder`
(source file not provided); it accumulates the list of validation rules
added by the `validate` override. -/
structure RequestBuilder where
  payload : List Payload

/-- Modelled from the spec: the `get` accessor of `RequestBuilder`
returning the accumulated rule list (used as `validationRules.get`). -/
def RequestBuilder.get (rb : RequestBuilder) : List Payload :=
  rb.payload

/-- The mutable `joiErrors` object of `joiValidator` before the empty
sections are deleted (`{ query: [], param: [], body: [] }`). -/
structure JoiAcc where
  query : List String
  param : List String
  body : List String
deriving DecidableEq

/-- The value returned by `joiValidator` when validation failed: each
section key is either deleted (`none`) or a list of error messages. -/
structure IJoiErrors where
  query : Option (List String)
  param : Option (List String)
  body : Option (List String)
deriving DecidableEq

/-- Body of the `forEach` loop of `MasterController.joiValidator`
(lines 89-118): validates the section matching the rule's type with
`{ abortEarly: false, allowUnknown: true }` and pushes every
`err.message` of `error.details` onto the matching section's array. -/
def joiStep (params query body : Data) (acc : JoiAcc) (payload : Payload) : JoiAcc :=
  match payload.type with
  | PayloadType.PARAMS =>
    match payload.schema params { abortEarly := false, allowUnknown := true } with
    | some error => { acc with param := acc.param ++ error.details.map (fun err => err.message) }
    | none => acc
  | PayloadType.QUERY =>
    match payload.schema query { abortEarly := false, allowUnknown := true } with
    | some error => { acc with query := acc.query ++ error.details.map (fun err => err.message) }
    | none => acc
  | PayloadType.BODY =>
    match payload.schema body { abortEarly := false, allowUnknown := true } with
    | some error => { acc with body := acc.body ++ error.details.map (fun err => err.message) }
    | none => acc

/-- `MasterController.joiValidator` (lines 77-126): returns `null` when
there are no rules, otherwise folds the rules over the empty `joiErrors`
object, deletes the empty sections and returns `null` when no key is
left. -/
def joiValidator (params query body : Data) (validationRules : RequestBuilder) :
    Option IJoiErrors :=
  if validationRules.get.length = 0 then
    none
  else
    let joiErrors := validationRules.payload.foldl (joiStep params query body)
      { query := [], param := [], body := [] }
    let q : Option (List String) :=
      if joiErrors.query.length = 0 then none else some joiErrors.query
    let p : Option (List String) :=
      if joiErrors.param.length = 0 then none else some joiErrors.param
    let b : Option (List String) :=
      if joiErrors.body.length = 0 then none else some joiErrors.body
    if q = none ∧ p = none ∧ b = none then none
    else some { query := q, param := p, body := b }

/-- The options every `schema.validate` call in `joiValidator` uses. -/
def joiOptions : ValidateOptions :=
  { abortEarly := false, allowUnknown := true }

/-- Spec-side: the messages the schema library produces for one rule's
schema on the given data, at the options `joiValidator` uses. -/
def msgsOf (s : Schema) (d : Data) : List String :=
  match s d joiOptions with
  | some e => e.details.map (fun err => err.message)
  | none => []

/-- Spec-side: the error messages for one request section — the messages
the schema library produced for the rules of that section's type,
concatenated in rule order. -/
def sectionMessages (d : Data) (t : PayloadType) : List Payload → List String
  | [] => []
  | p :: rs =>
    (if p.type = t then msgsOf p.schema d else []) ++ sectionMessages d t rs

/-- Spec-side restatement of `joiValidator` as the claims describe it:
each section is validated only against the rules of its own type, the
reported messages are exactly the library's messages in rule order, and
sections without errors are absent. -/
def joiValidatorSpec (params query body : Data) (rules : RequestBuilder) :
    Option IJoiErrors :=
  if rules.get.length = 0 then
    none
  else
    let q := sectionMessages query PayloadType.QUERY rules.payload
    let p := sectionMessages params PayloadType.PARAMS rules.payload
    let b := sectionMessages body PayloadType.BODY rules.payload
    if q = [] ∧ p = [] ∧ b = [] then none
    else some
      { query := if q = [] then none else some q
        param := if p = [] then none else some p
        body := if b = [] then none else some b }

/-- An incoming Express request: its `params`, `query`, `body` and
`headers` objects, plus `own`, the remaining own enumerable properties
of the request object itself that the spread `...req` copies (including
any custom data attached by middlewares). -/
structure Request where
  params : Data
  query : Data
  body : Data
  headers : Data
  own : Data

/-- Modelled from the spec: the `response` object a `ResponseBuilder`
instance carries (`./ResponseBuilder`, source file not provided); the
handler destructures it and reads its `status` field. -/
structure ApiResponse where
  status : Nat
  data : Json
  message : String

/-- Modelled from the spec: `ResponseBuilder` from `./ResponseBuilder`
(source file not provided) — the value `restController` resolves to,
holding the response object under its `response` property. -/
structure ResponseBuilder where
  response : ApiResponse

/-- A subclass of `MasterController`: its static `validate` override
(the configured `RequestBuilder`) and its instance `restController`
override, which either resolves to a `ResponseBuilder` or rejects with
an exception. -/
structure Controller where
  validate : RequestBuilder
  restController : Data → Data → Data → Data → Data → Except String ResponseBuilder

/-- What the handler does with a request: send an HTTP response with a
status code and a JSON body, or (modelled from the spec) reject, in
which case `asyncHandler` (`./AsyncHandler`, source file not provided)
passes the exception on to Express's `next`. -/
inductive HandlerOutcome where
  | sent (status : Nat) (body : Json) : HandlerOutcome
  | errored (e : String) : HandlerOutcome

/-- Serialization of the `response` object by `res.json`. -/
def apiResponseJson (r : ApiResponse) : Json :=
  Json.obj [("status", Json.num r.status), ("data", r.data), ("message", Json.str r.message)]

/-- Serialization of the `joiErrors` object by `res.json`: only the
sections that were not deleted appear, in declaration order. -/
def joiErrorsJson (errs : IJoiErrors) : Json :=
  Json.obj
    ((match errs.query with
      | some l => [("query", Json.arr (l.map Json.str))]
      | none => []) ++
     (match errs.param with
      | some l => [("param", Json.arr (l.map Json.str))]
      | none => []) ++
     (match errs.body with
      | some l => [("body", Json.arr (l.map Json.str))]
      | none => []))

/-- `allData` (line 142): `{ ...req.params, ...req.query, ...req.body,
...req.headers, ...req }`, spread in that order. -/
def allDataOf (req : Request) : Data :=
  req.params ++ req.query ++ req.body ++ req.headers ++ req.own

/-- The async function `MasterController.handler` returns (lines
138-166), for the subclass `C`: build `allData`, get the rules from the
class's `validate`, run `joiValidator`; on errors respond 400 with the
validation-error body, otherwise call `restController` and send its
response object with its own `status` field as HTTP status.  A rejection
of `restController` is not caught here and surfaces as `errored`. -/
def handler (C : Controller) (req : Request) : HandlerOutcome :=
  let allData := allDataOf req
  let validationRules := C.validate
  let joiErrors := joiValidator req.params req.query req.body validationRules
  match joiErrors with
  | some joiErrors =>
    HandlerOutcome.sent 400 (Json.obj
      [("status", Json.num 400),
       ("message", Json.str "Validation Error"),
       ("data", Json.null),
       ("errors", joiErrorsJson joiErrors)])
  | none =>
    match C.restController req.params req.query req.body req.headers allData with
    | Except.ok rb => HandlerOutcome.sent rb.response.status (apiResponseJson rb.response)
    | Except.error e => HandlerOutcome.errored e

/-- Spec-side: the validation-error body of line 149-154. -/
def validationErrorBody (errs : IJoiErrors) : Json :=
  Json.obj
    [("status", Json.num 400),
     ("message", Json.str "Validation Error"),
     ("data", Json.null),
     ("errors", joiErrorsJson errs)]

/-- HTTP method of a registered route. -/
inductive Method where
  | GET : Method
  | POST : Method
deriving DecidableEq

/-- An Express middleware, abstract: it is only stored and never run by
`MasterController`. -/
abbrev Middleware : Type := String

/-- One route registered on an Express router. -/
structure Route where
  method : Method
  path : String
  middlewares : List Middleware
  route_handler : Request → HandlerOutcome

/-- An Express router, abstracted to its list of registered routes. -/
structure Router where
  routes : List Route

/-- `router.get(path, middlewares, handler)`: appends one GET route. -/
def routerGet (r : Router) (path : String) (mws : List Middleware)
    (h : Request → HandlerOutcome) : Router :=
  { routes := r.routes ++ [⟨Method.GET, path, mws, h⟩] }

/-- `router.post(path, middlewares, handler)`: appends one POST route. -/
def routerPost (r : Router) (path : String) (mws : List Middleware)
    (h : Request → HandlerOutcome) : Router :=
  { routes := r.routes ++ [⟨Method.POST, path, mws, h⟩] }

namespace MasterController

/-- `MasterController.get` (lines 177-179) invoked on subclass `C`:
`return router.get(path, middlewares, this.handler())`. -/
def get (C : Controller) (router : Router) (path : String)
    (middlewares : List Middleware) : Router :=
  routerGet router path middlewares (handler C)

/-- `MasterController.post` (lines 189-191) invoked on subclass `C`:
`return router.post(path, middlewares, this.handler())`. -/
def post (C : Controller) (router : Router) (path : String)
    (middlewares : List Middleware) : Router :=
  routerPost router path middlewares (handler C)

end MasterController

/-- Shadowing combinator: the value of `override a b` is `b`'s value
when `b` has one, else `a`'s — how a later spread wins over an earlier
one. -/
def override (a b : Option Json) : Option Json :=
  match b with
  | some v => some v
  | none => a

/-- The names of the fields of a JSON object, in order. -/
def jsonFieldNames : Json → List String
  | Json.obj fields => fields.map Prod.fst
  | _ => []

/-- Spec-side: the request section a rule of the given payload type is
checked against. -/
def sectionData (params query body : Data) : PayloadType → Data
  | PayloadType.PARAMS => params
  | PayloadType.QUERY => query
  | PayloadType.BODY => body

/-- Spec-side: the `IJoiErrors` section matching a payload type. -/
def errsField : PayloadType → IJoiErrors → Option (List String)
  | PayloadType.PARAMS, errs => errs.param
  | PayloadType.QUERY, errs => errs.query
  | PayloadType.BODY, errs => errs.body

/-- Sample schema that always fails with one message. -/
def failSchema : Schema :=
  fun _ _ => some { details := [{ message := "bad" }] }

/-- Sample schema that always passes. -/
def okSchema : Schema :=
  fun _ _ => none

/-- Sample schema that reports two violations when `abortEarly` is off
and only the first one when it is on; it ignores the data. -/
def twoMsgSchema : Schema :=
  fun _ opts =>
    if opts.abortEarly then some { details := [{ message := "m1" }] }
    else some { details := [{ message := "m1" }, { message := "m2" }] }

/-- Sample response value. -/
def okResponse : ResponseBuilder :=
  { response := { status := 200, data := Json.null, message := "Success" } }

/-- Sample subclass whose body rule always fails. -/
def failController : Controller :=
  { validate := { payload := [{ type := PayloadType.BODY, schema := failSchema }] }
    restController := fun _ _ _ _ _ => Except.ok okResponse }

/-- Sample subclass with no validation rules. -/
def okController : Controller :=
  { validate := { payload := [] }
    restController := fun _ _ _ _ _ => Except.ok okResponse }

/-- Sample subclass with no rules whose controller rejects. -/
def throwController : Controller :=
  { validate := { payload := [] }
    restController := fun _ _ _ _ _ => Except.error "boom" }

/-- Sample rule list with one always-passing body rule. -/
def okRules : RequestBuilder :=
  { payload := [{ type := PayloadType.BODY, schema := okSchema }] }

/-- Sample rule list with one two-message body rule. -/
def twoMsgRules : RequestBuilder :=
  { payload := [{ type := PayloadType.BODY, schema := twoMsgSchema }] }

/-- Sample empty request. -/
def emptyRequest : Request :=
  { params := [], query := [], body := [], headers := [], own := [] }

/-- Sample request with overlapping keys in every section. -/
def overlapRequest : Request :=
  { params := [("k", Json.num 1)]
    query := [("k", Json.num 2)]
    body := [("k", Json.num 3)]
    headers := [("k", Json.num 4)]
    own := [("k", Json.num 5)] }

theorem joiStep_foldl (params query body : Data) (rules : List Payload) (acc : JoiAcc) :
    rules.foldl (joiStep params query body) acc =
      { query := acc.query ++ sectionMessages query PayloadType.QUERY rules
        param := acc.param ++ sectionMessages params PayloadType.PARAMS rules
        body := acc.body ++ sectionMessages body PayloadType.BODY rules } := by
  induction rules generalizing acc with
  | nil => simp [sectionMessages]
  | cons p rs ih =>
    rw [List.foldl_cons, ih]
    cases hp : p.type <;>
      cases hs : p.schema params joiOptions <;>
      cases hq : p.schema query joiOptions <;>
      cases hb : p.schema body joiOptions <;>
      simp [joiStep, joiOptions, hp, hs, hq, hb, msgsOf, sectionMessages,
        List.append_assoc] at *

theorem joiValidator_eq_spec (params query body : Data) (rules : RequestBuilder) :
    joiValidator params query body rules = joiValidatorSpec params query body rules := by
  unfold joiValidator joiValidatorSpec
  by_cases h : rules.get.length = 0
  · simp [h]
  · rw [if_neg h, if_neg h, joiStep_foldl]
    by_cases hq : sectionMessages query PayloadType.QUERY rules.payload = [] <;>
      by_cases hp : sectionMessages params PayloadType.PARAMS rules.payload = [] <;>
      by_cases hb : sectionMessages body PayloadType.BODY rules.payload = [] <;>
      simp [hq, hp, hb, List.length_eq_zero]

theorem sectionMessages_eq_nil (d : Data) (t : PayloadType) (rules : List Payload)
    (hne : ∀ p ∈ rules, ∀ e, p.schema d joiOptions = some e → e.details ≠ []) :
    sectionMessages d t rules = [] ↔
      ∀ p ∈ rules, p.type = t → p.schema d joiOptions = none := by
  induction rules with
  | nil => simp [sectionMessages]
  | cons p rs ih =>
    have hhd := hne p (List.mem_cons_self p rs)
    have htl := ih (fun q hq => hne q (List.mem_cons_of_mem p hq))
    rw [sectionMessages, List.append_eq_nil, htl]
    constructor
    · rintro ⟨h1, h2⟩ q hq hqt
      rcases List.mem_cons.mp hq with rfl | hq
      · rw [hqt, if_pos rfl] at h1
        cases hs : q.schema d joiOptions with
        | none => rfl
        | some e =>
          exfalso
          apply hhd e hs
          have : msgsOf q.schema d = [] := h1
          rw [msgsOf, hs] at this
          simpa using this
      · exact h2 q hq hqt
    · intro h
      refine ⟨?_, fun q hq hqt => h q (List.mem_cons_of_mem p hq) hqt⟩
      by_cases hpt : p.type = t
      · rw [if_pos hpt, msgsOf, h p (List.mem_cons_self p rs) hpt]
      · rw [if_neg hpt]

theorem mem_sectionMessages (d : Data) (t : PayloadType) (rules : List Payload)
    (p : Payload) (hp : p ∈ rules) (ht : p.type = t) (m : String)
    (hm : m ∈ msgsOf p.schema d) :
    m ∈ sectionMessages d t rules := by
  induction rules with
  | nil => cases hp
  | cons q rs ih =>
    rw [sectionMessages]
    rcases List.mem_cons.mp hp with rfl | hp
    · exact List.mem_append_left _ (by rw [if_pos ht]; exact hm)
    · exact List.mem_append_right _ (ih hp)

theorem foldl_getv (b : Data) (k : String) (acc : Option Json) :
    b.foldl (fun a p => if p.1 = k then some p.2 else a) acc = override acc (getv b k) := by
  induction b generalizing acc with
  | nil => simp [getv, override]
  | cons hd tl ih =>
    have hl : (hd :: tl).foldl (fun a p => if p.1 = k then some p.2 else a) acc =
        override (if hd.1 = k then some hd.2 else acc) (getv tl k) := by
      rw [List.foldl_cons, ih]
    have hr : getv (hd :: tl) k =
        override (if hd.1 = k then some hd.2 else none) (getv tl k) := by
      rw [getv, List.foldl_cons, ih]
    rw [hl, hr]
    by_cases hk : hd.1 = k <;> cases hv : getv tl k <;> simp [override, hk, hv]

theorem getv_append (a b : Data) (k : String) :
    getv (a ++ b) k = override (getv a k) (getv b k) := by
  rw [getv, List.foldl_append, foldl_getv]
  rfl

theorem override_assoc (a b c : Option Json) :
    override (override a b) c = override a (override b c) := by
  cases c <;> cases b <;> simp [override]

theorem sectionMessages_addKey (d : Data) (k : String) (v : Json) (t : PayloadType)
    (rules : List Payload)
    (hinv : ∀ p ∈ rules, ∀ w opts, opts.allowUnknown = true →
      p.schema (d ++ [(k, w)]) opts = p.schema d opts) :
    sectionMessages (d ++ [(k, v)]) t rules = sectionMessages d t rules := by
  induction rules with
  | nil => rfl
  | cons p rs ih =>
    rw [sectionMessages, sectionMessages,
      ih (fun q hq => hinv q (List.mem_cons_of_mem p hq))]
    congr 1
    by_cases ht : p.type = t
    · rw [if_pos ht, if_pos ht, msgsOf, msgsOf,
        hinv p (List.mem_cons_self p rs) v joiOptions rfl]
    · rw [if_neg ht, if_neg ht]

/-- C1: whenever `joiValidator` returns a non-null error object, the
Express handler responds with status 400 and the JSON body
`{status: 400, message: "Validation Error", data: null, errors: <the
joiValidator result>}`, and the subclass's `restController` override is
never invoked: the outcome is unchanged under any replacement of
`restController`. -/
theorem claim_C1 (C : Controller) (req : Request) (errs : IJoiErrors)
    (h : joiValidator req.params req.query req.body C.validate = some errs) :
    handler C req = HandlerOutcome.sent 400 (validationErrorBody errs) ∧
      ∀ f, handler { C with restController := f } req = handler C req := by
  constructor
  · simp [handler, h, validationErrorBody]
  · intro f
    simp [handler, h]

theorem claim_C1_witness :
    handler failController emptyRequest =
      HandlerOutcome.sent 400 (validationErrorBody ⟨none, none, some ["bad"]⟩) ∧
    handler { failController with restController := fun _ _ _ _ _ => Except.error "x" }
        emptyRequest =
      handler failController emptyRequest :=
  ⟨(claim_C1 failController emptyRequest ⟨none, none, some ["bad"]⟩ rfl).1,
   (claim_C1 failController emptyRequest ⟨none, none, some ["bad"]⟩ rfl).2 _⟩

/-- C2: `joiValidator` checks each rule only against the request section
matching the rule's type by calling the schema library's validate, and
the messages it reports per section are exactly the library's messages
for that section's rules, concatenated in rule order — it equals the
spec-side pass-through `joiValidatorSpec`. -/
theorem claim_C2 (params query body : Data) (rules : RequestBuilder) :
    joiValidator params query body rules = joiValidatorSpec params query body rules :=
  joiValidator_eq_spec params query body rules

/-- C3: when `joiValidator` returns null the handler invokes
`restController` and sends its response, and no error response other
than the 400 validation response is produced by the handler itself: a
rejection of `restController` is not caught but surfaces to
`asyncHandler`. -/
theorem claim_C3 (C : Controller) (req : Request)
    (h : joiValidator req.params req.query req.body C.validate = none) :
    (∀ rb, C.restController req.params req.query req.body req.headers (allDataOf req) =
        Except.ok rb →
      handler C req = HandlerOutcome.sent rb.response.status (apiResponseJson rb.response)) ∧
    (∀ e, C.restController req.params req.query req.body req.headers (allDataOf req) =
        Except.error e →
      handler C req = HandlerOutcome.errored e) := by
  constructor <;> intro x hx <;> simp [handler, h, hx]

theorem claim_C3_witness :
    handler okController emptyRequest =
      HandlerOutcome.sent 200 (apiResponseJson okResponse.response) ∧
    handler throwController emptyRequest = HandlerOutcome.errored "boom" :=
  ⟨(claim_C3 okController emptyRequest rfl).1 okResponse rfl,
   (claim_C3 throwController emptyRequest rfl).2 "boom" rfl⟩

/-- C4: the handler's dataflow is: build `allData` by spreading params,
query, body, headers and the request object; take the rules from the
class's `validate`; run `joiValidator` on params, query and body; if
validation passes call `restController` with (params, query, body,
headers, allData); send the JSON response built from its result. -/
theorem claim_C4 (C : Controller) (req : Request) :
    handler C req =
      (let allData := allDataOf req
       let validationRules := C.validate
       match joiValidator req.params req.query req.body validationRules with
       | some joiErrors => HandlerOutcome.sent 400 (validationErrorBody joiErrors)
       | none =>
         match C.restController req.params req.query req.body req.headers allData with
         | Except.ok rb =>
           HandlerOutcome.sent rb.response.status (apiResponseJson rb.response)
         | Except.error e => HandlerOutcome.errored e) := rfl

/-- C5: the response shape is normalized — on validation failure the
body is a JSON object with exactly the fields status, message, data,
errors; on success the HTTP status sent equals the `status` field of the
`response` object destructured from `restController`'s value, and the
body is that response object itself. -/
theorem claim_C5 (C : Controller) (req : Request) :
    (∀ errs, joiValidator req.params req.query req.body C.validate = some errs →
      handler C req = HandlerOutcome.sent 400 (validationErrorBody errs) ∧
      jsonFieldNames (validationErrorBody errs) = ["status", "message", "data", "errors"]) ∧
    (∀ rb, joiValidator req.params req.query req.body C.validate = none →
      C.restController req.params req.query req.body req.headers (allDataOf req) =
        Except.ok rb →
      handler C req = HandlerOutcome.sent rb.response.status (apiResponseJson rb.response)) := by
  constructor
  · intro errs h
    exact ⟨by simp [handler, h, validationErrorBody],
      by simp [jsonFieldNames, validationErrorBody]⟩
  · intro rb h hok
    simp [handler, h, hok]

theorem claim_C5_witness :
    (handler failController emptyRequest =
        HandlerOutcome.sent 400 (validationErrorBody ⟨none, none, some ["bad"]⟩) ∧
      jsonFieldNames (validationErrorBody ⟨none, none, some ["bad"]⟩) =
        ["status", "message", "data", "errors"]) ∧
    handler okController emptyRequest =
      HandlerOutcome.sent 200 (apiResponseJson okResponse.response) :=
  ⟨(claim_C5 failController emptyRequest).1 ⟨none, none, some ["bad"]⟩ rfl,
   (claim_C5 okController emptyRequest).2 okResponse rfl rfl⟩

/-- C6: each call of `MasterController.get` registers via `router.get`
exactly one handler — the invoking subclass's `handler`, built from that
subclass's `validate` and `restController` — and likewise
`MasterController.post` via `router.post`. -/
theorem claim_C6 (C : Controller) (router : Router) (path : String)
    (middlewares : List Middleware) :
    (MasterController.get C router path middlewares).routes =
      router.routes ++ [⟨Method.GET, path, middlewares, handler C⟩] ∧
    (MasterController.post C router path middlewares).routes =
      router.routes ++ [⟨Method.POST, path, middlewares, handler C⟩] :=
  ⟨rfl, rfl⟩

/-- C7: under the Joi invariant that a validation error always carries
at least one detail, `joiValidator` returns null iff the rule list is
empty or no schema validation produced an error; every non-null result
maps each present section key to a non-empty message list (the record
only has the keys query, param, body, and empty sections are deleted). -/
theorem claim_C7 (params query body : Data) (rules : RequestBuilder)
    (hne : ∀ p ∈ rules.payload, ∀ d e, p.schema d joiOptions = some e → e.details ≠ []) :
    (joiValidator params query body rules = none ↔
      rules.get = [] ∨
        ∀ p ∈ rules.payload,
          p.schema (sectionData params query body p.type) joiOptions = none) ∧
    (∀ errs, joiValidator params query body rules = some errs →
      (∀ l, errs.query = some l → l ≠ []) ∧
      (∀ l, errs.param = some l → l ≠ []) ∧
      (∀ l, errs.body = some l → l ≠ [])) := by
  have hq := sectionMessages_eq_nil query PayloadType.QUERY rules.payload
    (fun p hp => hne p hp query)
  have hpm := sectionMessages_eq_nil params PayloadType.PARAMS rules.payload
    (fun p hp => hne p hp params)
  have hb := sectionMessages_eq_nil body PayloadType.BODY rules.payload
    (fun p hp => hne p hp body)
  have hsplit : (∀ p ∈ rules.payload,
      p.schema (sectionData params query body p.type) joiOptions = none) ↔
      ((∀ p ∈ rules.payload, p.type = PayloadType.QUERY →
          p.schema query joiOptions = none) ∧
       (∀ p ∈ rules.payload, p.type = PayloadType.PARAMS →
          p.schema params joiOptions = none) ∧
       (∀ p ∈ rules.payload, p.type = PayloadType.BODY →
          p.schema body joiOptions = none)) := by
    constructor
    · refine fun h => ⟨fun p hp ht => ?_, fun p hp ht => ?_, fun p hp ht => ?_⟩ <;>
        · have h2 := h p hp
          rw [ht] at h2
          exact h2
    · rintro ⟨h1, h2, h3⟩ p hp
      cases ht : p.type with
      | PARAMS => rw [sectionData]; exact h2 p hp ht
      | QUERY => rw [sectionData]; exact h1 p hp ht
      | BODY => rw [sectionData]; exact h3 p hp ht
  rw [joiValidator_eq_spec, joiValidatorSpec]
  constructor
  · by_cases h0 : rules.get.length = 0
    · rw [if_pos h0]
      exact ⟨fun _ => Or.inl (List.length_eq_zero.mp h0), fun _ => rfl⟩
    · rw [if_neg h0]
      by_cases hall : sectionMessages query PayloadType.QUERY rules.payload = [] ∧
          sectionMessages params PayloadType.PARAMS rules.payload = [] ∧
          sectionMessages body PayloadType.BODY rules.payload = []
      · rw [if_pos hall]
        exact ⟨fun _ => Or.inr (hsplit.mpr ⟨hq.mp hall.1, hpm.mp hall.2.1, hb.mp hall.2.2⟩),
          fun _ => rfl⟩
      · rw [if_neg hall]
        constructor
        · intro h; cases h
        · rintro (h | h)
          · exact absurd (by rw [h]; rfl : rules.get.length = 0) h0
          · exact absurd ⟨hq.mpr (hsplit.mp h).1, hpm.mpr (hsplit.mp h).2.1,
              hb.mpr (hsplit.mp h).2.2⟩ hall
  · intro errs herrs
    by_cases h0 : rules.get.length = 0
    · rw [if_pos h0] at herrs; cases herrs
    · rw [if_neg h0] at herrs
      by_cases hall : sectionMessages query PayloadType.QUERY rules.payload = [] ∧
          sectionMessages params PayloadType.PARAMS rules.payload = [] ∧
          sectionMessages body PayloadType.BODY rules.payload = []
      · rw [if_pos hall] at herrs; cases herrs
      · rw [if_neg hall] at herrs
        have hgen : ∀ (L l : List String),
            (if L = [] then (none : Option (List String)) else some L) = some l →
              l ≠ [] := by
          intro L l hL
          by_cases hLnil : L = []
          · rw [if_pos hLnil] at hL; cases hL
          · rw [if_neg hLnil] at hL
            injection hL with h2
            subst h2
            exact hLnil
        cases herrs
        exact ⟨hgen _, hgen _, hgen _⟩

theorem claim_C7_witness :
    joiValidator [] [] [] okRules = none ∧
      (okRules.get = [] ∨
        ∀ p ∈ okRules.payload,
          p.schema (sectionData [] [] [] p.type) joiOptions = none) := by
  have hok : ∀ p ∈ okRules.payload,
      p.schema (sectionData [] [] [] p.type) joiOptions = none := by
    intro p hp
    simp only [okRules, List.mem_singleton] at hp
    subst hp
    rfl
  have h := claim_C7 [] [] [] okRules (by
    intro p hp d e he
    simp only [okRules, List.mem_singleton] at hp
    subst hp
    simp [okSchema] at he)
  exact ⟨h.1.mpr (Or.inr hok), Or.inr hok⟩

/-- C8: every `schema.validate` call in `joiValidator` uses abortEarly
off and allowUnknown on — so appending a key that every configured
schema ignores under allowUnknown never changes the validation result,
and when a schema reports several violations every one of its messages
appears in the corresponding section of the result, not only the
first. -/
theorem claim_C8 (params query body : Data) (rules : RequestBuilder) (k : String) (v : Json)
    (hinv : ∀ p ∈ rules.payload, ∀ d w opts, opts.allowUnknown = true →
      p.schema (d ++ [(k, w)]) opts = p.schema d opts) :
    joiValidator (params ++ [(k, v)]) (query ++ [(k, v)]) (body ++ [(k, v)]) rules =
      joiValidator params query body rules ∧
    (∀ p ∈ rules.payload, ∀ e m,
      p.schema (sectionData params query body p.type) joiOptions = some e →
      m ∈ e.details.map (fun d => d.message) →
      ∃ errs l, joiValidator params query body rules = some errs ∧
        errsField p.type errs = some l ∧ m ∈ l) := by
  constructor
  · rw [joiValidator_eq_spec, joiValidator_eq_spec]
    unfold joiValidatorSpec
    rw [sectionMessages_addKey query k v PayloadType.QUERY rules.payload
        (fun p hp w opts h => hinv p hp query w opts h),
      sectionMessages_addKey params k v PayloadType.PARAMS rules.payload
        (fun p hp w opts h => hinv p hp params w opts h),
      sectionMessages_addKey body k v PayloadType.BODY rules.payload
        (fun p hp w opts h => hinv p hp body w opts h)]
  · intro p hp e m hse hm
    obtain ⟨pt, ps⟩ := p
    have hmem : m ∈ sectionMessages (sectionData params query body pt) pt rules.payload :=
      mem_sectionMessages _ _ _ ⟨pt, ps⟩ hp rfl m (by rw [msgsOf]; rw [hse]; exact hm)
    have h0 : ¬ rules.get.length = 0 := by
      intro h
      have hemp : rules.payload = [] := List.length_eq_zero.mp h
      rw [hemp] at hp
      cases hp
    rw [joiValidator_eq_spec]
    unfold joiValidatorSpec
    rw [if_neg h0]
    cases pt with
    | QUERY =>
      have hnil : sectionMessages query PayloadType.QUERY rules.payload ≠ [] := by
        intro hq
        rw [show sectionData params query body PayloadType.QUERY = query from rfl, hq] at hmem
        cases hmem
      rw [if_neg (fun hall => hnil hall.1)]
      exact ⟨_, _, rfl, by rw [errsField]; rw [if_neg hnil]; rfl, hmem⟩
    | PARAMS =>
      have hnil : sectionMessages params PayloadType.PARAMS rules.payload ≠ [] := by
        intro hq
        rw [show sectionData params query body PayloadType.PARAMS = params from rfl, hq] at hmem
        cases hmem
      rw [if_neg (fun hall => hnil hall.2.1)]
      exact ⟨_, _, rfl, by rw [errsField]; rw [if_neg hnil]; rfl, hmem⟩
    | BODY =>
      have hnil : sectionMessages body PayloadType.BODY rules.payload ≠ [] := by
        intro hq
        rw [show sectionData params query body PayloadType.BODY = body from rfl, hq] at hmem
        cases hmem
      rw [if_neg (fun hall => hnil hall.2.2)]
      exact ⟨_, _, rfl, by rw [errsField]; rw [if_neg hnil]; rfl, hmem⟩

theorem claim_C8_witness :
    joiValidator ([] ++ [("x", Json.null)]) ([] ++ [("x", Json.null)])
        ([] ++ [("x", Json.null)]) twoMsgRules =
      joiValidator [] [] [] twoMsgRules ∧
    ∃ errs l, joiValidator [] [] [] twoMsgRules = some errs ∧
      errsField PayloadType.BODY errs = some l ∧ "m2" ∈ l := by
  have h := claim_C8 [] [] [] twoMsgRules "x" Json.null (by
    intro p hp d w opts hw
    simp only [twoMsgRules, List.mem_singleton] at hp
    subst hp
    rfl)
  exact ⟨h.1, h.2 ⟨PayloadType.BODY, twoMsgSchema⟩ (by simp [twoMsgRules])
    ⟨[⟨"m1"⟩, ⟨"m2"⟩]⟩ "m2" rfl (by simp)⟩

/-- C9: `allData` spreads params, query, body, headers and the request
object in that order, so at every key the later source wins; in
particular an own property of the request object shadows any same-named
entry from params, query, body or headers. -/
theorem claim_C9 (req : Request) (k : String) :
    getv (allDataOf req) k =
      override (override (override (override (getv req.params k) (getv req.query k))
        (getv req.body k)) (getv req.headers k)) (getv req.own k) := by
  simp [allDataOf, getv_append, override_assoc]
